import Mathlib

/-!
Verification development for the devdash core: shallow embedding of the
event-bus topic matcher, the layout engine, the widget registry and the
plugin manager, together with theorems settling the specification claims.

Machine integers of the source (u16 arithmetic in the layout engine) are
modelled as Nat with explicit reduction modulo 65536 at every operation
that can overflow; saturating subtraction on u16 coincides with Nat
subtraction. Strings are modelled as lists of characters.
-/

/-- Wrapping 16-bit addition, the release-mode semantics of u16 addition. -/
def wadd (a b : Nat) : Nat := (a + b) % 65536

/-- Wrapping 16-bit multiplication, the release-mode semantics of u16 multiplication. -/
def wmul (a b : Nat) : Nat := (a * b) % 65536

/-! ## Event bus: topic matching (devdash-core/src/event.rs) -/

/-- Splitting a string at every dot, as the Rust str split does: the empty
string yields one empty segment, and separators at the ends yield empty
segments. Strings are lists of characters. -/
def splitDot : List Char → List (List Char)
  | [] => [[]]
  | c :: rest =>
    if c = Char.ofNat 46 then [] :: splitDot rest
    else
      match splitDot rest with
      | [] => [[c]]
      | seg :: segs => (c :: seg) :: segs

/-- The segment walk of EventBus::topic_matches. The first list is the
suffix of the topic segments from the current index on, the second the
suffix of the pattern segments; plen and tlen are the full segment counts.
A star pattern segment that is last succeeds at once; a star segment in
the middle is skipped; any other pattern segment must equal the topic
segment at the same index. When the pattern is exhausted the walk
succeeds only on equal segment counts. -/
def EventBus.matchGo (plen tlen : Nat) : List (List Char) → List (List Char) → Bool
  | _, [] => plen == tlen
  | ts, p :: ps =>
    if p = [Char.ofNat 42] then
      if ps = [] then true
      else EventBus.matchGo plen tlen ts.tail ps
    else if ts.head? = some p then EventBus.matchGo plen tlen ts.tail ps
    else false

/-- EventBus::topic_matches: exact equality short-circuits; otherwise a
pattern with more segments than the topic never matches; otherwise the
walk over the segments decides. -/
def EventBus.topic_matches (topic pattern : List Char) : Bool :=
  if topic = pattern then true
  else
    let topic_parts := splitDot topic
    let pattern_parts := splitDot pattern
    if pattern_parts.length > topic_parts.length then false
    else EventBus.matchGo pattern_parts.length topic_parts.length topic_parts pattern_parts

/-- The matching predicate exactly as the claim C1 words it: T equals P, or
the last segment of P is a star, every non-star segment of P equals the
topic segment at the same position, and the segment count of P minus one is
at most the segment count of T. -/
def specMatchesC1 (t p : List Char) : Prop :=
  t = p ∨
    ((splitDot p).getLast? = some [Char.ofNat 42] ∧
     (∀ j, j < (splitDot p).length →
        (splitDot p).get? j ≠ some [Char.ofNat 42] →
        (splitDot p).get? j = (splitDot t).get? j) ∧
     (splitDot p).length - 1 ≤ (splitDot t).length)

instance (t p : List Char) : Decidable (specMatchesC1 t p) := by
  unfold specMatchesC1; infer_instance

/-! ## Layout engine (devdash-core/src/layout.rs) -/

structure Rect where
  x : Nat
  y : Nat
  width : Nat
  height : Nat
deriving DecidableEq

/-- Transposed rectangle: the two axes exchanged. Used to derive the
vertical split from the horizontal one. -/
def Rect.transpose (r : Rect) : Rect := ⟨r.y, r.x, r.height, r.width⟩

inductive Constraint where
  | Fixed (n : Nat)
  | Flex (weight : Nat)
  | Percentage (pct : Nat)
  | Min (n : Nat)
  | Max (n : Nat)
deriving DecidableEq

mutual
inductive LayoutItem where
  | constraint (c : Constraint)
  | nested (l : Layout)

inductive Layout where
  | horizontal (items : List LayoutItem)
  | vertical (items : List LayoutItem)
end

/-- First pass of Layout::split_horizontal: walk the items keeping the
remaining width. Fixed and Percentage consume space at once; Flex, Nested,
Min and Max push a zero-width placeholder. The x recorded here is the
running offset of the source; it is overwritten by the final position
fix-up exactly as in the source. -/
def Layout.first_pass_h (area : Rect) (total : Nat) : List LayoutItem → Nat → List Rect × Nat
  | [], remaining => ([], remaining)
  | item :: rest, remaining =>
    match item with
    | .constraint (.Fixed size) =>
      let allocated := min size remaining
      let r : Rect := ⟨wadd area.x (total - remaining), area.y, allocated, area.height⟩
      let out := Layout.first_pass_h area total rest (remaining - allocated)
      (r :: out.1, out.2)
    | .constraint (.Percentage pct) =>
      let size := min (wmul total (min pct 100) / 100) remaining
      let r : Rect := ⟨wadd area.x (total - remaining), area.y, size, area.height⟩
      let out := Layout.first_pass_h area total rest (remaining - size)
      (r :: out.1, out.2)
    | .constraint (.Flex _) =>
      let r : Rect := ⟨wadd area.x (total - remaining), area.y, 0, area.height⟩
      let out := Layout.first_pass_h area total rest remaining
      (r :: out.1, out.2)
    | .constraint (.Min _) =>
      let r : Rect := ⟨wadd area.x (total - remaining), area.y, 0, area.height⟩
      let out := Layout.first_pass_h area total rest remaining
      (r :: out.1, out.2)
    | .constraint (.Max _) =>
      let r : Rect := ⟨wadd area.x (total - remaining), area.y, 0, area.height⟩
      let out := Layout.first_pass_h area total rest remaining
      (r :: out.1, out.2)
    | .nested _ =>
      let r : Rect := ⟨wadd area.x (total - remaining), area.y, 0, area.height⟩
      let out := Layout.first_pass_h area total rest remaining
      (r :: out.1, out.2)

/-- First pass of Layout::split_vertical, the vertical twin of
first_pass_h: heights instead of widths, y offsets instead of x offsets. -/
def Layout.first_pass_v (area : Rect) (total : Nat) : List LayoutItem → Nat → List Rect × Nat
  | [], remaining => ([], remaining)
  | item :: rest, remaining =>
    match item with
    | .constraint (.Fixed size) =>
      let allocated := min size remaining
      let r : Rect := ⟨area.x, wadd area.y (total - remaining), area.width, allocated⟩
      let out := Layout.first_pass_v area total rest (remaining - allocated)
      (r :: out.1, out.2)
    | .constraint (.Percentage pct) =>
      let size := min (wmul total (min pct 100) / 100) remaining
      let r : Rect := ⟨area.x, wadd area.y (total - remaining), area.width, size⟩
      let out := Layout.first_pass_v area total rest (remaining - size)
      (r :: out.1, out.2)
    | .constraint (.Flex _) =>
      let r : Rect := ⟨area.x, wadd area.y (total - remaining), area.width, 0⟩
      let out := Layout.first_pass_v area total rest remaining
      (r :: out.1, out.2)
    | .constraint (.Min _) =>
      let r : Rect := ⟨area.x, wadd area.y (total - remaining), area.width, 0⟩
      let out := Layout.first_pass_v area total rest remaining
      (r :: out.1, out.2)
    | .constraint (.Max _) =>
      let r : Rect := ⟨area.x, wadd area.y (total - remaining), area.width, 0⟩
      let out := Layout.first_pass_v area total rest remaining
      (r :: out.1, out.2)
    | .nested _ =>
      let r : Rect := ⟨area.x, wadd area.y (total - remaining), area.width, 0⟩
      let out := Layout.first_pass_v area total rest remaining
      (r :: out.1, out.2)

/-- Whether an item joins the flex pool of the second pass: Flex leaves and
Nested sub-layouts do, everything else does not. -/
def Layout.is_flex_item : LayoutItem → Bool
  | .constraint (.Flex _) => true
  | .nested _ => true
  | _ => false

/-- The flex counter maintained during the first pass of the source, one
u16 increment per Flex or Nested item, hence the count modulo 65536. -/
def Layout.flex_total (items : List LayoutItem) : Nat :=
  (items.countP Layout.is_flex_item) % 65536

/-- The weights collected by the filter_map of the second pass: the weight
of each Flex leaf and a default weight of 1 for each Nested item, in item
order. -/
def Layout.flex_weights : List LayoutItem → List Nat
  | [] => []
  | .constraint (.Flex w) :: rest => w :: Layout.flex_weights rest
  | .nested _ :: rest => 1 :: Layout.flex_weights rest
  | _ :: rest => Layout.flex_weights rest

/-- total_flex_weight of the second pass: the u16 sum of the flex weights,
folded with wrapping addition. -/
def Layout.total_flex_weight (items : List LayoutItem) : Nat :=
  (Layout.flex_weights items).foldl wadd 0

/-- The second-pass allocation of a single item: a Flex leaf of weight w
receives the u16 product of the remaining budget and w divided by the
total weight, at least 1; a Nested item receives the remaining budget
divided by the total weight, at least 1; other items receive nothing. -/
def Layout.flex_alloc (remaining tw : Nat) : LayoutItem → Option Nat
  | .constraint (.Flex weight) => some (max (wmul remaining weight / tw) 1)
  | .nested _ => some (max (remaining / tw) 1)
  | _ => none

/-- The distributed total of the second pass: the u16 sum of all the
second-pass allocations. -/
def Layout.distributed (remaining tw : Nat) (items : List LayoutItem) : Nat :=
  (items.filterMap (Layout.flex_alloc remaining tw)).foldl wadd 0

/-- Overwriting the placeholder widths of the first pass with the
second-pass allocations, position by position. -/
def Layout.apply_flex_h (remaining tw : Nat) : List Rect → List LayoutItem → List Rect
  | [], _ => []
  | rs, [] => rs
  | r :: rs, it :: its =>
    (match Layout.flex_alloc remaining tw it with
     | some w => { r with width := w }
     | none => r) :: Layout.apply_flex_h remaining tw rs its

/-- The vertical twin of apply_flex_h, overwriting heights. -/
def Layout.apply_flex_v (remaining tw : Nat) : List Rect → List LayoutItem → List Rect
  | [], _ => []
  | rs, [] => rs
  | r :: rs, it :: its =>
    (match Layout.flex_alloc remaining tw it with
     | some h => { r with height := h }
     | none => r) :: Layout.apply_flex_v remaining tw rs its

/-- The rounding fix-up of the source: walk the items from the rear and add
the whole leftover to the first Flex or Nested item found, that is to the
last one in item order; add nothing when no such item exists. -/
def Layout.add_leftover_h (extra : Nat) : List Rect → List LayoutItem → List Rect
  | [], _ => []
  | rs, [] => rs
  | r :: rs, it :: its =>
    if its.any Layout.is_flex_item then r :: Layout.add_leftover_h extra rs its
    else if Layout.is_flex_item it then { r with width := wadd r.width extra } :: rs
    else r :: rs

/-- The vertical twin of add_leftover_h. -/
def Layout.add_leftover_v (extra : Nat) : List Rect → List LayoutItem → List Rect
  | [], _ => []
  | rs, [] => rs
  | r :: rs, it :: its =>
    if its.any Layout.is_flex_item then r :: Layout.add_leftover_v extra rs its
    else if Layout.is_flex_item it then { r with height := wadd r.height extra } :: rs
    else r :: rs

/-- The index of the last Flex or Nested item of the list, the target of
the rounding fix-up. -/
def Layout.last_flex_idx : List LayoutItem → Option Nat
  | [] => none
  | it :: its =>
    match Layout.last_flex_idx its with
    | some j => some (j + 1)
    | none => if Layout.is_flex_item it then some 0 else none

/-- The final position fix-up of Layout::split_horizontal: x positions
become a running offset of the cumulative widths. -/
def Layout.fix_x (x0 : Nat) : List Rect → List Rect
  | [] => []
  | r :: rs => { r with x := x0 } :: Layout.fix_x (wadd x0 r.width) rs

/-- The final position fix-up of Layout::split_vertical. -/
def Layout.fix_y (y0 : Nat) : List Rect → List Rect
  | [] => []
  | r :: rs => { r with y := y0 } :: Layout.fix_y (wadd y0 r.height) rs

/-- Layout::split_horizontal: first pass, then, when the flex pool and the
remaining budget are both non-empty and the total weight is positive, the
second pass and the rounding fix-up, then the position fix-up. -/
def Layout.split_horizontal (area : Rect) (items : List LayoutItem) : List Rect :=
  if items.isEmpty then []
  else
    let total := area.width
    let fp := Layout.first_pass_h area total items total
    let remaining := fp.2
    let areas1 :=
      if Layout.flex_total items > 0 ∧ remaining > 0 then
        let tw := Layout.total_flex_weight items
        if tw > 0 then
          let areas2 := Layout.apply_flex_h remaining tw fp.1 items
          let dist := Layout.distributed remaining tw items
          if dist < remaining then Layout.add_leftover_h (remaining - dist) areas2 items
          else areas2
        else fp.1
      else fp.1
    Layout.fix_x area.x areas1

/-- Layout::split_vertical, the vertical twin of split_horizontal. -/
def Layout.split_vertical (area : Rect) (items : List LayoutItem) : List Rect :=
  if items.isEmpty then []
  else
    let total := area.height
    let fp := Layout.first_pass_v area total items total
    let remaining := fp.2
    let areas1 :=
      if Layout.flex_total items > 0 ∧ remaining > 0 then
        let tw := Layout.total_flex_weight items
        if tw > 0 then
          let areas2 := Layout.apply_flex_v remaining tw fp.1 items
          let dist := Layout.distributed remaining tw items
          if dist < remaining then Layout.add_leftover_v (remaining - dist) areas2 items
          else areas2
        else fp.1
      else fp.1
    Layout.fix_y area.y areas1

mutual
/-- Layout::calculate_recursive: split the area, then emit the rectangle of
each Constraint leaf and recurse in place into each Nested sub-layout. -/
def Layout.calculate_rec : Layout → Rect → List Rect
  | .horizontal items, area => Layout.calc_zip (Layout.split_horizontal area items) items
  | .vertical items, area => Layout.calc_zip (Layout.split_vertical area items) items

/-- The zip of the split rectangles with the items, the loop body of
calculate_recursive. -/
def Layout.calc_zip : List Rect → List LayoutItem → List Rect
  | _, [] => []
  | [], _ :: _ => []
  | r :: rs, it :: its =>
    (match it with
     | .constraint _ => [r]
     | .nested nl => Layout.calculate_rec nl r) ++ Layout.calc_zip rs its
end

/-- Layout::calculate. -/
def Layout.calculate (l : Layout) (area : Rect) : List Rect :=
  Layout.calculate_rec l area

/-- Direction-indexed split, true for horizontal: the claims C2 and C9
quantify over both node kinds. -/
def Layout.split_dir : Bool → Rect → List LayoutItem → List Rect
  | true, area, items => Layout.split_horizontal area items
  | false, area, items => Layout.split_vertical area items

/-- The major-axis size of a rectangle for a direction: width for
horizontal, height for vertical. -/
def Rect.major : Bool → Rect → Nat
  | true, r => r.width
  | false, r => r.height

/-- The remaining major-axis budget after the first pass of the split in
the given direction. -/
def Layout.remaining_after : Bool → Rect → List LayoutItem → Nat
  | true, area, items => (Layout.first_pass_h area area.width items area.width).2
  | false, area, items => (Layout.first_pass_v area area.height items area.height).2

/-- The weight an item contributes to the flex pool, as the claim words it:
the Flex weight, or 1 for a Nested item. -/
def Layout.claim_weight : LayoutItem → Option Nat
  | .constraint (.Flex w) => some w
  | .nested _ => some 1
  | _ => none

/-- The second-pass allocation formula as the claim words it, in exact
arithmetic: the floor of remaining times weight over the total weight, with
minimum 1. -/
def Layout.claim_alloc (remaining tw : Nat) (it : LayoutItem) : Option Nat :=
  (Layout.claim_weight it).map (fun w => max (remaining * w / tw) 1)

/-! ## Widget registry (devdash-core/src/registry.rs) -/

/-- Lookup in an association list modelling HashMap::get. -/
def lookupKey {β : Type _} (k : String) : List (String × β) → Option β
  | [] => none
  | e :: rest => if e.1 = k then some e.2 else lookupKey k rest

/-- Removal of a key, modelling HashMap::remove: afterwards the key is
absent. -/
def eraseKey {β : Type _} (k : String) (l : List (String × β)) : List (String × β) :=
  l.filter fun e => e.1 != k

/-- Insertion of a key, modelling HashMap::insert: the previous entry for
the key, if any, is replaced. -/
def insertKey {β : Type _} (k : String) (v : β) (l : List (String × β)) : List (String × β) :=
  (k, v) :: eraseKey k l

/-- WidgetRegistry: factories for built-in widgets and pre-built one-shot
widget instances, both keyed by name. W is the widget type, B the event-bus
handle type, I the poll-interval type. -/
structure WidgetRegistry (W B I : Type) where
  factories : List (String × (B → I → W))
  widgets : List (String × W)

/-- WidgetRegistry::register. -/
def WidgetRegistry.register {W B I : Type} (r : WidgetRegistry W B I) (name : String)
    (factory : B → I → W) : WidgetRegistry W B I :=
  { r with factories := insertKey name factory r.factories }

/-- WidgetRegistry::register_widget. -/
def WidgetRegistry.register_widget {W B I : Type} (r : WidgetRegistry W B I) (name : String)
    (widget : W) : WidgetRegistry W B I :=
  { r with widgets := insertKey name widget r.widgets }

/-- WidgetRegistry::create: a pre-built instance under the name is removed
and returned; otherwise a registered factory is invoked; otherwise nothing
is returned. The updated registry is returned alongside. -/
def WidgetRegistry.create {W B I : Type} (r : WidgetRegistry W B I) (name : String)
    (bus : B) (interval : I) : WidgetRegistry W B I × Option W :=
  match lookupKey name r.widgets with
  | some widget => ({ r with widgets := eraseKey name r.widgets }, some widget)
  | none =>
    match lookupKey name r.factories with
    | some f => (r, some (f bus interval))
    | none => (r, none)

/-! ## Plugin manager (devdash-core/src/plugin.rs) -/

/-- The error taxonomy of PluginError. -/
inductive PluginErr where
  | ioErr
  | loadingErr
  | utf8Err
  | versionMismatch (expected got : Nat)
  | watcherErr
  | notFound
deriving DecidableEq

/-- The externally visible steps of PluginManager::load_plugin, in
execution order. -/
inductive LoadAction where
  | copyToTemp
  | openLibrary
  | resolveMetadata
  | callMetadata
  | resolveCreate
  | resolveDestroy
  | callCreate
  | parseName
  | insertBookkeeping
deriving DecidableEq

/-- The behaviour of one plugin library file as the host observes it: which
load steps succeed, the reported api_version, the name bytes decoded (none
models invalid UTF-8), and the identity of the widget instance that the
create entry point returns. -/
structure LibSpec where
  copyOk : Bool
  libOpenOk : Bool
  metadataSymOk : Bool
  apiVersion : Nat
  nameUtf8 : Option String
  createSymOk : Bool
  destroySymOk : Bool
  widgetId : Nat
deriving DecidableEq

/-- HashMap::insert on the bookkeeping map, whose values carry no
information beyond the key: the key set is preserved or extended. -/
def insertPlugin (name : String) (plugins : List String) : List String :=
  if name ∈ plugins then plugins else name :: plugins

/-- HashMap::remove on the bookkeeping map. -/
def removePlugin (name : String) (plugins : List String) : List String :=
  plugins.filter fun n => n != name

/-- PluginManager::load_plugin: copy to a temp path, open the library,
resolve and call the metadata entry point, reject a version other than 1,
resolve the create and destroy entry points, call create, decode the name,
insert the bookkeeping entry and return the widget. The returned triple is
the updated bookkeeping map, the executed steps in order, and the result. -/
def PluginManager.load_plugin (lib : LibSpec) (plugins : List String) :
    List String × List LoadAction × Except PluginErr (String × Nat) :=
  if ¬ lib.copyOk then (plugins, [.copyToTemp], .error .ioErr)
  else if ¬ lib.libOpenOk then (plugins, [.copyToTemp, .openLibrary], .error .loadingErr)
  else if ¬ lib.metadataSymOk then
    (plugins, [.copyToTemp, .openLibrary, .resolveMetadata], .error .loadingErr)
  else if lib.apiVersion ≠ 1 then
    (plugins, [.copyToTemp, .openLibrary, .resolveMetadata, .callMetadata],
     .error (.versionMismatch 1 lib.apiVersion))
  else if ¬ lib.createSymOk then
    (plugins, [.copyToTemp, .openLibrary, .resolveMetadata, .callMetadata, .resolveCreate],
     .error .loadingErr)
  else if ¬ lib.destroySymOk then
    (plugins,
     [.copyToTemp, .openLibrary, .resolveMetadata, .callMetadata, .resolveCreate,
      .resolveDestroy],
     .error .loadingErr)
  else
    match lib.nameUtf8 with
    | none =>
      (plugins,
       [.copyToTemp, .openLibrary, .resolveMetadata, .callMetadata, .resolveCreate,
        .resolveDestroy, .callCreate, .parseName],
       .error .utf8Err)
    | some name =>
      (insertPlugin name plugins,
       [.copyToTemp, .openLibrary, .resolveMetadata, .callMetadata, .resolveCreate,
        .resolveDestroy, .callCreate, .parseName, .insertBookkeeping],
       .ok (name, lib.widgetId))

/-- A live widget container as the reload path sees it: the stable name,
the identity of the owned widget instance, and the mounted flag. -/
structure WidgetC where
  name : String
  wid : Nat
  mounted : Bool
deriving DecidableEq

/-- The placeholder container the source swaps in while tearing down the
old widget: a fresh CpuWidget named placeholder, not mounted. -/
def placeholderC (freshId : Nat) : WidgetC :=
  { name := "placeholder", wid := freshId, mounted := false }

/-- Vec::iter().position of the source, a zero-based first-match index. -/
def listPosition {α : Type _} (p : α → Bool) : List α → Option Nat
  | [] => none
  | a :: rest => if p a then some 0 else (listPosition p rest).map (· + 1)

/-- The externally visible effects of PluginManager::reload_plugin. -/
inductive RAction where
  | onUnmount (wid : Nat)
  | destroyWidget (wid : Nat)
  | removeBookkeeping
  | onMount (wid : Nat)
  | load (a : LoadAction)
deriving DecidableEq

/-- PluginManager::reload_plugin: find the live widget by name; if present,
swap in a placeholder container and tear the old widget down (unmount when
mounted, then destroy); remove the bookkeeping entry; load the replacement;
on success splice the new container in at the same position, or append when
none existed, and mount the first container bearing the loaded name; on
failure return the error, leaving the placeholder in place. Returns the
bookkeeping map, the widget list, the effect trace, and the error if any.
The fixed grace-period sleep has no observable state effect and is not
modelled. -/
def PluginManager.reload_plugin (lib : LibSpec) (plugin_name : String) (freshId : Nat)
    (plugins : List String) (widgets : List WidgetC) :
    List String × List WidgetC × List RAction × Option PluginErr :=
  let widgetIdx := listPosition (fun w => w.name == plugin_name) widgets
  let teardown : List WidgetC × List RAction :=
    match widgetIdx with
    | some idx =>
      match widgets.get? idx with
      | some old =>
        (widgets.set idx (placeholderC freshId),
         (if old.mounted then [RAction.onUnmount old.wid] else []) ++
           [RAction.destroyWidget old.wid])
      | none => (widgets, [])
    | none => (widgets, [])
  let widgets1 := teardown.1
  let plugins1 := removePlugin plugin_name plugins
  match PluginManager.load_plugin lib plugins1 with
  | (plugins2, lacts, .error e) =>
    (plugins2, widgets1, teardown.2 ++ [RAction.removeBookkeeping] ++ lacts.map RAction.load,
     some e)
  | (plugins2, lacts, .ok (name, wid)) =>
    let newC : WidgetC := { name := name, wid := wid, mounted := false }
    let widgets2 :=
      match widgetIdx with
      | some idx => widgets1.set idx newC
      | none => widgets1 ++ [newC]
    let base := teardown.2 ++ [RAction.removeBookkeeping] ++ lacts.map RAction.load
    match listPosition (fun w => w.name == name) widgets2 with
    | some j =>
      match widgets2.get? j with
      | some c =>
        if c.mounted then (plugins2, widgets2, base, none)
        else
          (plugins2, widgets2.set j { c with mounted := true }, base ++ [RAction.onMount c.wid],
           none)
      | none => (plugins2, widgets2, base, none)
    | none => (plugins2, widgets2, base, none)

/-! ## Plugin widget wrapper (devdash-core/src/plugin.rs, impl Widget for
PluginWidget and impl Drop for PluginWidget) -/

structure WSize where
  width : Nat
  height : Nat
deriving DecidableEq

inductive EventResult where
  | consumed
  | ignored
deriving DecidableEq

/-- The behaviour reachable through the opaque handle of a plugin widget
instance: one entry per Widget capability, over an abstract private state.
Events and render buffers are abstract values. -/
structure PluginVTable (σ : Type) where
  on_mount : σ → σ
  on_update : σ → Nat → σ
  on_event : σ → Nat → σ × EventResult
  render : σ → Rect → Nat → σ × Nat
  render_focused : σ → Rect → Nat → Bool → σ × Nat
  preferred_size : σ → Option WSize
  needs_update : σ → Bool
  on_unmount : σ → σ

/-- PluginWidget: the reconstructed handle to the plugin instance together
with its private state, the raw handle identity kept for the destroy call,
and the identity of the owned library handle. -/
structure PluginWidget (σ : Type) where
  vtable : PluginVTable σ
  state : σ
  handleId : Nat
  libId : Nat

def PluginWidget.on_mount {σ : Type} (pw : PluginWidget σ) : PluginWidget σ :=
  { pw with state := pw.vtable.on_mount pw.state }

def PluginWidget.on_update {σ : Type} (pw : PluginWidget σ) (delta : Nat) : PluginWidget σ :=
  { pw with state := pw.vtable.on_update pw.state delta }

def PluginWidget.on_event {σ : Type} (pw : PluginWidget σ) (e : Nat) :
    PluginWidget σ × EventResult :=
  let out := pw.vtable.on_event pw.state e
  ({ pw with state := out.1 }, out.2)

def PluginWidget.render {σ : Type} (pw : PluginWidget σ) (area : Rect) (buf : Nat) :
    PluginWidget σ × Nat :=
  let out := pw.vtable.render pw.state area buf
  ({ pw with state := out.1 }, out.2)

def PluginWidget.render_focused {σ : Type} (pw : PluginWidget σ) (area : Rect) (buf : Nat)
    (focused : Bool) : PluginWidget σ × Nat :=
  let out := pw.vtable.render_focused pw.state area buf focused
  ({ pw with state := out.1 }, out.2)

/-- The source returns None here without consulting the instance. -/
def PluginWidget.preferred_size {σ : Type} (_pw : PluginWidget σ) : Option WSize :=
  none

def PluginWidget.needs_update {σ : Type} (pw : PluginWidget σ) : Bool :=
  pw.vtable.needs_update pw.state

def PluginWidget.on_unmount {σ : Type} (pw : PluginWidget σ) : PluginWidget σ :=
  { pw with state := pw.vtable.on_unmount pw.state }

/-- The teardown effects of the wrapper, in order. -/
inductive FfiAction where
  | callDestroy (handle : Nat)
  | releaseLibrary (lib : Nat)
deriving DecidableEq

/-- Drop for PluginWidget: the body calls the destroy entry point on the
stored handle; the owned library field is released afterwards, when the
fields are dropped. -/
def PluginWidget.drop {σ : Type} (pw : PluginWidget σ) : List FfiAction :=
  [.callDestroy pw.handleId, .releaseLibrary pw.libId]

/-- The vtable of the C8 counterexample: an instance whose preferred size
is 3 by 4. -/
def cexVTable : PluginVTable Nat :=
  { on_mount := id
    on_update := fun s _ => s
    on_event := fun s _ => (s, .ignored)
    render := fun s _ b => (s, b)
    render_focused := fun s _ b _ => (s, b)
    preferred_size := fun _ => some ⟨3, 4⟩
    needs_update := fun _ => false
    on_unmount := id }

/-- The wrapper of the C8 counterexample. -/
def cexPluginWidget : PluginWidget Nat :=
  { vtable := cexVTable, state := 0, handleId := 1, libId := 2 }

/-! ## Theorems -/

theorem tail_get? {α : Type _} (l : List α) (j : Nat) : l.tail.get? j = l.get? (j + 1) := by
  cases l <;> rfl

theorem splitDot_ne_nil (s : List Char) : splitDot s ≠ [] := by
  cases s with
  | nil => simp [splitDot]
  | cons c rest =>
    unfold splitDot
    by_cases h : c = Char.ofNat 46
    · simp [h]
    · simp only [h, if_false]
      split <;> simp

/-- Characterization of the segment walk: it succeeds exactly when every
pattern segment from the current point on is a star or equals the topic
segment at the same offset, and either the final pattern segment is a star
or the recorded segment counts are equal. -/
theorem EventBus.matchGo_eq_true_iff (plen tlen : Nat) :
    ∀ (ps ts : List (List Char)),
      EventBus.matchGo plen tlen ts ps = true ↔
        ((∀ j, j < ps.length →
            (ps.get? j = some [Char.ofNat 42] ∨ ps.get? j = ts.get? j)) ∧
         ((ps ≠ [] ∧ ps.getLast? = some [Char.ofNat 42]) ∨ plen = tlen)) := by
  intro ps
  induction ps with
  | nil =>
    intro ts
    simp [EventBus.matchGo]
  | cons p ps ih =>
    intro ts
    by_cases hstar : p = [Char.ofNat 42]
    · subst hstar
      by_cases hnil : ps = []
      · subst hnil
        constructor
        · intro _
          refine ⟨?_, Or.inl ⟨by simp, by simp⟩⟩
          intro j hj
          have hj0 : j = 0 := by simp at hj; omega
          subst hj0
          exact Or.inl rfl
        · intro _
          simp [EventBus.matchGo]
      · have hstep :
            EventBus.matchGo plen tlen ts ([Char.ofNat 42] :: ps) =
              EventBus.matchGo plen tlen ts.tail ps := by
          simp [EventBus.matchGo, hnil]
        rw [hstep, ih ts.tail]
        obtain ⟨q, qs, rfl⟩ := List.exists_cons_of_ne_nil hnil
        constructor
        · rintro ⟨hA, hL⟩
          refine ⟨?_, ?_⟩
          · intro j hj
            cases j with
            | zero => exact Or.inl rfl
            | succ j =>
              have := hA j (by simpa using hj)
              simpa [tail_get?] using this
          · rcases hL with ⟨-, hlast⟩ | heq
            · exact Or.inl ⟨by simp, by simpa using hlast⟩
            · exact Or.inr heq
        · rintro ⟨hA, hL⟩
          refine ⟨?_, ?_⟩
          · intro j hj
            have := hA (j + 1) (by simpa using Nat.succ_lt_succ hj)
            simpa [tail_get?] using this
          · rcases hL with ⟨-, hlast⟩ | heq
            · exact Or.inl ⟨by simp, by simpa using hlast⟩
            · exact Or.inr heq
    · by_cases hhead : ts.head? = some p
      · have hstep :
            EventBus.matchGo plen tlen ts (p :: ps) =
              EventBus.matchGo plen tlen ts.tail ps := by
          simp [EventBus.matchGo, hstar, hhead]
        rw [hstep, ih ts.tail]
        constructor
        · rintro ⟨hA, hL⟩
          refine ⟨?_, ?_⟩
          · intro j hj
            cases j with
            | zero =>
              cases ts with
              | nil => simp at hhead
              | cons a l =>
                have hap : a = p := by simpa using hhead
                subst hap
                exact Or.inr rfl
            | succ j =>
              have := hA j (by simpa using hj)
              simpa [tail_get?] using this
          · cases ps with
            | nil =>
              rcases hL with ⟨habs, -⟩ | heq
              · exact absurd rfl habs
              · exact Or.inr heq
            | cons q qs =>
              rcases hL with ⟨-, hlast⟩ | heq
              · exact Or.inl ⟨by simp, by simpa using hlast⟩
              · exact Or.inr heq
        · rintro ⟨hA, hL⟩
          refine ⟨?_, ?_⟩
          · intro j hj
            have := hA (j + 1) (by simpa using Nat.succ_lt_succ hj)
            simpa [tail_get?] using this
          · cases ps with
            | nil =>
              rcases hL with ⟨-, hlast⟩ | heq
              · exact absurd (by simpa using hlast) hstar
              · exact Or.inr heq
            | cons q qs =>
              rcases hL with ⟨-, hlast⟩ | heq
              · exact Or.inl ⟨by simp, by simpa using hlast⟩
              · exact Or.inr heq
      · have hstep : EventBus.matchGo plen tlen ts (p :: ps) = false := by
          simp [EventBus.matchGo, hstar, hhead]
        rw [hstep]
        simp only [Bool.false_eq_true, false_iff]
        rintro ⟨hA, -⟩
        rcases hA 0 (by simp) with h | h
        · exact hstar (by simpa using h)
        · cases ts with
          | nil => simp at h
          | cons a l =>
            have hpa : p = a := by simpa using h
            exact hhead (by simp [hpa])

/-- C1 (amended): the topic matcher returns true if and only if the pattern
has at most as many segments as the topic, every pattern segment is a star
or equals the topic segment at the same position, and either the last
pattern segment is a star or the two segment counts are equal. Relative to
the claim, the bound is the pattern count itself, not the count minus one,
and a pattern whose mid segments are stars can also match with a non-star
final segment on equal counts. -/
theorem EventBus.topic_matches_characterization (t p : List Char) :
    EventBus.topic_matches t p = true ↔
      ((splitDot p).length ≤ (splitDot t).length ∧
       (∀ j, j < (splitDot p).length →
          ((splitDot p).get? j = some [Char.ofNat 42] ∨
           (splitDot p).get? j = (splitDot t).get? j)) ∧
       ((splitDot p).getLast? = some [Char.ofNat 42] ∨
        (splitDot p).length = (splitDot t).length)) := by
  unfold EventBus.topic_matches
  by_cases heq : t = p
  · subst heq
    constructor
    · intro _
      exact ⟨le_refl _, fun j _ => Or.inr rfl, Or.inr rfl⟩
    · intro _
      simp
  · simp only [if_neg heq]
    by_cases hlen : (splitDot p).length > (splitDot t).length
    · simp only [if_pos hlen, Bool.false_eq_true, false_iff]
      rintro ⟨hle, -, -⟩
      omega
    · simp only [if_neg hlen]
      rw [EventBus.matchGo_eq_true_iff]
      have hne := splitDot_ne_nil p
      constructor
      · rintro ⟨hA, hL⟩
        refine ⟨by omega, hA, ?_⟩
        rcases hL with ⟨-, hlast⟩ | hl
        · exact Or.inl hlast
        · exact Or.inr hl
      · rintro ⟨-, hA, hL⟩
        refine ⟨hA, ?_⟩
        rcases hL with hlast | hl
        · exact Or.inl ⟨hne, hlast⟩
        · exact Or.inr hl

/-- C1 counterexample: the claim, as stated, is false in both directions.
With topic a and pattern a dot star the matcher returns false although the
claim condition holds, and with topic a.b.c and pattern a.star.c the
matcher returns true although the claim condition fails. -/
theorem topic_matches_c1_counterexample :
    (EventBus.topic_matches ("a".data) ("a.*".data) = false ∧
       specMatchesC1 ("a".data) ("a.*".data)) ∧
    (EventBus.topic_matches ("a.b.c".data) ("a.*.c".data) = true ∧
       ¬ specMatchesC1 ("a.b.c".data) ("a.*.c".data)) := by
  decide

/-- C1 witness: the characterization applied at a concrete matching pair. -/
theorem topic_matches_c1_witness :
    EventBus.topic_matches ("system.cpu.usage".data) ("system.*".data) = true :=
  (EventBus.topic_matches_characterization ("system.cpu.usage".data) ("system.*".data)).mpr
    (by decide)

theorem first_pass_h_length (area : Rect) (total : Nat) :
    ∀ (items : List LayoutItem) (rem : Nat),
      (Layout.first_pass_h area total items rem).1.length = items.length := by
  intro items
  induction items with
  | nil => intro rem; simp [Layout.first_pass_h]
  | cons item rest ih =>
    intro rem
    cases item with
    | constraint c =>
      cases c <;> simp [Layout.first_pass_h, ih]
    | nested l => simp [Layout.first_pass_h, ih]

theorem foldl_wadd_eq_sum :
    ∀ (l : List Nat) (acc : Nat), acc + l.sum < 65536 → l.foldl wadd acc = acc + l.sum := by
  intro l
  induction l with
  | nil => intro acc _; simp
  | cons x xs ih =>
    intro acc hb
    have hx : acc + x < 65536 := by
      simp [List.sum_cons] at hb
      omega
    have hw : wadd acc x = acc + x := by
      simp [wadd, Nat.mod_eq_of_lt hx]
    simp only [List.foldl_cons, hw]
    rw [ih (acc + x) (by simp [List.sum_cons] at hb; omega)]
    simp [List.sum_cons]
    omega

theorem last_flex_idx_isSome (its : List LayoutItem) :
    (Layout.last_flex_idx its).isSome = its.any Layout.is_flex_item := by
  induction its with
  | nil => simp [Layout.last_flex_idx]
  | cons it rest ih =>
    unfold Layout.last_flex_idx
    cases h : Layout.last_flex_idx rest with
    | some j =>
      simp only [Option.isSome_some, List.any_cons]
      rw [h] at ih
      simp at ih
      simp
      exact Or.inr ih
    | none =>
      rw [h] at ih
      simp only [Option.isSome_none] at ih
      by_cases hf : Layout.is_flex_item it
      · simp [hf]
      · simp [hf, ← ih]

theorem apply_flex_h_get? (rem tw : Nat) :
    ∀ (rs : List Rect) (its : List LayoutItem) (i : Nat) (r : Rect) (it : LayoutItem),
      rs.get? i = some r → its.get? i = some it →
      (Layout.apply_flex_h rem tw rs its).get? i =
        some (match Layout.flex_alloc rem tw it with
              | some w => { r with width := w }
              | none => r) := by
  intro rs
  induction rs with
  | nil => intro its i r it hr _; simp at hr
  | cons r0 rs ih =>
    intro its i r it hr hit
    cases its with
    | nil => simp at hit
    | cons it0 its =>
      cases i with
      | zero =>
        rw [List.get?_cons_zero] at hr hit
        injection hr with hr
        injection hit with hit
        subst hr; subst hit
        simp [Layout.apply_flex_h]
      | succ i =>
        rw [List.get?_cons_succ] at hr hit
        simpa [Layout.apply_flex_h] using ih its i r it hr hit

theorem add_leftover_h_get? (extra : Nat) :
    ∀ (rs : List Rect) (its : List LayoutItem) (i : Nat),
      (Layout.add_leftover_h extra rs its).get? i =
        if Layout.last_flex_idx its = some i then
          (rs.get? i).map (fun r => { r with width := wadd r.width extra })
        else rs.get? i := by
  intro rs
  induction rs with
  | nil =>
    intro its i
    simp [Layout.add_leftover_h]
  | cons r0 rs ih =>
    intro its i
    cases its with
    | nil =>
      simp [Layout.add_leftover_h, Layout.last_flex_idx]
    | cons it0 its =>
      by_cases hany : its.any Layout.is_flex_item
      · have hsome : (Layout.last_flex_idx its).isSome = true := by
          rw [last_flex_idx_isSome]; exact hany
        obtain ⟨j, hj⟩ := Option.isSome_iff_exists.mp hsome
        have hstep : Layout.add_leftover_h extra (r0 :: rs) (it0 :: its) =
            r0 :: Layout.add_leftover_h extra rs its := by
          simp [Layout.add_leftover_h, hany]
        have hlast : Layout.last_flex_idx (it0 :: its) = some (j + 1) := by
          unfold Layout.last_flex_idx
          rw [hj]
        rw [hstep, hlast]
        cases i with
        | zero => simp
        | succ i =>
          have hih := ih its i
          rw [hj] at hih
          simp only [List.get?_cons_succ]
          rw [hih]
          by_cases hij : j = i
          · subst hij; simp
          · rw [if_neg (by simpa using hij), if_neg (by simpa using hij)]
      · have hnone : Layout.last_flex_idx its = none := by
          cases h2 : Layout.last_flex_idx its with
          | none => rfl
          | some j =>
            have h3 := last_flex_idx_isSome its
            rw [h2] at h3
            exact absurd h3.symm hany
        by_cases hf : Layout.is_flex_item it0
        · have hstep : Layout.add_leftover_h extra (r0 :: rs) (it0 :: its) =
              { r0 with width := wadd r0.width extra } :: rs := by
            simp [Layout.add_leftover_h, hany, hf]
          have hlast : Layout.last_flex_idx (it0 :: its) = some 0 := by
            unfold Layout.last_flex_idx
            rw [hnone]
            simp [hf]
          rw [hstep, hlast]
          cases i with
          | zero => simp
          | succ i => simp
        · have hstep : Layout.add_leftover_h extra (r0 :: rs) (it0 :: its) = r0 :: rs := by
            simp [Layout.add_leftover_h, hany, hf]
          have hlast : Layout.last_flex_idx (it0 :: its) = none := by
            unfold Layout.last_flex_idx
            rw [hnone]
            simp [hf]
          rw [hstep, hlast]
          simp

theorem fix_x_width :
    ∀ (rs : List Rect) (x0 i : Nat),
      ((Layout.fix_x x0 rs).get? i).map Rect.width = (rs.get? i).map Rect.width := by
  intro rs
  induction rs with
  | nil => intro x0 i; simp [Layout.fix_x]
  | cons r0 rs ih =>
    intro x0 i
    cases i with
    | zero => simp [Layout.fix_x]
    | succ i => simpa [Layout.fix_x] using ih (wadd x0 r0.width) i

theorem flex_weights_mem :
    ∀ (items : List LayoutItem) (w : Nat),
      (LayoutItem.constraint (Constraint.Flex w)) ∈ items → w ∈ Layout.flex_weights items := by
  intro items
  induction items with
  | nil => intro w h; simp at h
  | cons it rest ih =>
    intro w h
    rcases List.mem_cons.mp h with h0 | h1
    · rw [← h0]
      simp [Layout.flex_weights]
    · have := ih w h1
      cases it with
      | nested l => simp [Layout.flex_weights, this]
      | constraint c => cases c <;> simp [Layout.flex_weights, this]

theorem filterMap_congr_on {α β : Type _} (f g : α → Option β) :
    ∀ (l : List α), (∀ a ∈ l, f a = g a) → l.filterMap f = l.filterMap g := by
  intro l
  induction l with
  | nil => intro _; rfl
  | cons a rest ih =>
    intro h
    have ha := h a (List.mem_cons_self a rest)
    have hrest := ih fun b hb => h b (List.mem_cons_of_mem a hb)
    simp [List.filterMap_cons, ha, hrest]

theorem exists_pos_of_sum_pos :
    ∀ (l : List Nat), 0 < l.sum → ∃ w ∈ l, 0 < w := by
  intro l
  induction l with
  | nil => intro h; simp at h
  | cons x xs ih =>
    intro h
    by_cases hx : 0 < x
    · exact ⟨x, List.mem_cons_self x xs, hx⟩
    · have hx0 : x = 0 := by omega
      subst hx0
      simp [List.sum_cons] at h
      obtain ⟨w, hw, hpos⟩ := ih h
      exact ⟨w, List.mem_cons_of_mem 0 hw, hpos⟩

theorem le_sum_of_mem : ∀ (l : List Nat) (x : Nat), x ∈ l → x ≤ l.sum := by
  intro l
  induction l with
  | nil => intro x h; simp at h
  | cons a rest ih =>
    intro x h
    rcases List.mem_cons.mp h with h0 | h1
    · subst h0; simp [List.sum_cons]
    · have := ih x h1
      simp [List.sum_cons]
      omega

/-- Core lemma for C2: under the guards of the second pass and with no u16
overflow in the weight sum, the per-item products and the distributed sum,
the horizontal split gives every flex-pool item the claimed allocation,
with the whole rounding leftover on the last flex-pool item. -/
theorem split_horizontal_flex_spec (area : Rect) (items : List LayoutItem)
    (rem tw D : Nat)
    (hrem_def : rem = (Layout.first_pass_h area area.width items area.width).2)
    (htw_def : tw = (Layout.flex_weights items).sum)
    (hD_def : D = (items.filterMap (Layout.claim_alloc rem tw)).sum)
    (hpool : Layout.flex_total items > 0)
    (hrem : rem > 0)
    (htwpos : 0 < tw)
    (htwb : tw < 65536)
    (hmul : ∀ w ∈ Layout.flex_weights items, rem * w < 65536)
    (hdist : D < 65536) :
    ∀ i it, items.get? i = some it → Layout.is_flex_item it = true →
      ((Layout.split_horizontal area items).get? i).map Rect.width =
        (Layout.claim_alloc rem tw it).map
          (fun base =>
            base + (if Layout.last_flex_idx items = some i ∧ D < rem then rem - D else 0)) := by
  subst htw_def
  subst hD_def
  intro i it hget hflex
  have hmem : it ∈ items := List.get?_mem hget
  have hlen_i : i < items.length := by
    by_contra hcon
    rw [List.get?_eq_none.mpr (by omega)] at hget
    simp at hget
  have hne : items.isEmpty = false := by
    cases items with
    | nil => simp at hget
    | cons a l => rfl
  have htwc : Layout.total_flex_weight items = (Layout.flex_weights items).sum := by
    have h0 := foldl_wadd_eq_sum (Layout.flex_weights items) 0 (by omega)
    simpa [Layout.total_flex_weight] using h0
  have hpoint : ∀ a ∈ items,
      Layout.flex_alloc rem ((Layout.flex_weights items).sum) a =
        Layout.claim_alloc rem ((Layout.flex_weights items).sum) a := by
    intro a ha
    cases a with
    | nested l => simp [Layout.flex_alloc, Layout.claim_alloc, Layout.claim_weight]
    | constraint c =>
      cases c with
      | Flex w =>
        have hw : w ∈ Layout.flex_weights items := flex_weights_mem items w ha
        have hmw := hmul w hw
        simp [Layout.flex_alloc, Layout.claim_alloc, Layout.claim_weight, wmul,
          Nat.mod_eq_of_lt hmw]
      | Fixed n => simp [Layout.flex_alloc, Layout.claim_alloc, Layout.claim_weight]
      | Percentage p => simp [Layout.flex_alloc, Layout.claim_alloc, Layout.claim_weight]
      | Min n => simp [Layout.flex_alloc, Layout.claim_alloc, Layout.claim_weight]
      | Max n => simp [Layout.flex_alloc, Layout.claim_alloc, Layout.claim_weight]
  have hdcode : Layout.distributed rem ((Layout.flex_weights items).sum) items =
      (items.filterMap (Layout.claim_alloc rem ((Layout.flex_weights items).sum))).sum := by
    unfold Layout.distributed
    rw [filterMap_congr_on _ _ items hpoint]
    have h0 := foldl_wadd_eq_sum
      (items.filterMap (Layout.claim_alloc rem ((Layout.flex_weights items).sum))) 0 (by omega)
    simpa using h0
  have hRb : rem < 65536 := by
    obtain ⟨w, hwmem, hwpos⟩ := exists_pos_of_sum_pos (Layout.flex_weights items) htwpos
    have h1 := hmul w hwmem
    have h2 : rem ≤ rem * w := Nat.le_mul_of_pos_right rem hwpos
    omega
  have hclaim : ∃ base, Layout.claim_alloc rem ((Layout.flex_weights items).sum) it = some base := by
    cases it with
    | nested l => exact ⟨_, rfl⟩
    | constraint c =>
      cases c with
      | Flex w => exact ⟨_, rfl⟩
      | Fixed n => simp [Layout.is_flex_item] at hflex
      | Percentage p => simp [Layout.is_flex_item] at hflex
      | Min n => simp [Layout.is_flex_item] at hflex
      | Max n => simp [Layout.is_flex_item] at hflex
  obtain ⟨base, hbase⟩ := hclaim
  have hbaseD : base ≤ (items.filterMap (Layout.claim_alloc rem ((Layout.flex_weights items).sum))).sum := by
    apply le_sum_of_mem
    exact List.mem_filterMap.mpr ⟨it, hmem, hbase⟩
  have hr : ∃ r, (Layout.first_pass_h area area.width items area.width).1.get? i = some r := by
    have hl := first_pass_h_length area area.width items area.width
    cases hq : (Layout.first_pass_h area area.width items area.width).1.get? i with
    | none =>
      rw [List.get?_eq_none] at hq
      omega
    | some r => exact ⟨r, rfl⟩
  obtain ⟨r, hrget⟩ := hr
  have happ := apply_flex_h_get? rem ((Layout.flex_weights items).sum)
    (Layout.first_pass_h area area.width items area.width).1 items i r it hrget hget
  rw [hpoint it hmem, hbase] at happ
  have hsplit : Layout.split_horizontal area items =
      Layout.fix_x area.x
        (if Layout.distributed rem ((Layout.flex_weights items).sum) items < rem then
          Layout.add_leftover_h
            (rem - Layout.distributed rem ((Layout.flex_weights items).sum) items)
            (Layout.apply_flex_h rem ((Layout.flex_weights items).sum)
              (Layout.first_pass_h area area.width items area.width).1 items) items
         else
          Layout.apply_flex_h rem ((Layout.flex_weights items).sum)
            (Layout.first_pass_h area area.width items area.width).1 items) := by
    unfold Layout.split_horizontal
    rw [if_neg (by simp [hne])]
    dsimp only
    rw [← hrem_def, htwc]
    rw [if_pos ⟨hpool, hrem⟩, if_pos htwpos]
  rw [hsplit]
  by_cases hD : Layout.distributed rem ((Layout.flex_weights items).sum) items < rem
  · rw [if_pos hD, fix_x_width]
    rw [add_leftover_h_get?]
    rw [hdcode] at hD
    by_cases hli : Layout.last_flex_idx items = some i
    · rw [if_pos hli, happ]
      have hwadd : wadd base (rem - (items.filterMap
          (Layout.claim_alloc rem ((Layout.flex_weights items).sum))).sum) =
          base + (rem - (items.filterMap
            (Layout.claim_alloc rem ((Layout.flex_weights items).sum))).sum) := by
        unfold wadd
        apply Nat.mod_eq_of_lt
        omega
      simp only [Option.map_some, hbase, hdcode]
      rw [if_pos ⟨hli, hD⟩]
      simp [hwadd]
    · rw [if_neg hli, happ]
      simp only [Option.map_some, hbase]
      rw [if_neg (by intro hcon; exact hli hcon.1)]
      simp
  · rw [if_neg hD, fix_x_width, happ]
    rw [hdcode] at hD
    simp only [Option.map_some, hbase]
    rw [if_neg (by intro hcon; exact hD hcon.2)]
    simp

theorem first_pass_v_transpose (area : Rect) (total : Nat) :
    ∀ (items : List LayoutItem) (rem : Nat),
      Layout.first_pass_v area total items rem =
        ((Layout.first_pass_h area.transpose total items rem).1.map Rect.transpose,
         (Layout.first_pass_h area.transpose total items rem).2) := by
  intro items
  induction items with
  | nil => intro rem; simp [Layout.first_pass_h, Layout.first_pass_v]
  | cons item rest ih =>
    intro rem
    cases item with
    | constraint c =>
      cases c <;>
        simp [Layout.first_pass_h, Layout.first_pass_v, Rect.transpose, ih]
    | nested l =>
      simp [Layout.first_pass_h, Layout.first_pass_v, Rect.transpose, ih]

theorem apply_flex_v_transpose (rem tw : Nat) :
    ∀ (rs : List Rect) (its : List LayoutItem),
      Layout.apply_flex_v rem tw (rs.map Rect.transpose) its =
        (Layout.apply_flex_h rem tw rs its).map Rect.transpose := by
  intro rs
  induction rs with
  | nil => intro its; simp [Layout.apply_flex_h, Layout.apply_flex_v]
  | cons r0 rs ih =>
    intro its
    cases its with
    | nil => simp [Layout.apply_flex_h, Layout.apply_flex_v]
    | cons it0 its =>
      cases h : Layout.flex_alloc rem tw it0 with
      | none => simp [Layout.apply_flex_h, Layout.apply_flex_v, h, ih]
      | some w => simp [Layout.apply_flex_h, Layout.apply_flex_v, h, ih, Rect.transpose]

theorem add_leftover_v_transpose (extra : Nat) :
    ∀ (rs : List Rect) (its : List LayoutItem),
      Layout.add_leftover_v extra (rs.map Rect.transpose) its =
        (Layout.add_leftover_h extra rs its).map Rect.transpose := by
  intro rs
  induction rs with
  | nil => intro its; simp [Layout.add_leftover_h, Layout.add_leftover_v]
  | cons r0 rs ih =>
    intro its
    cases its with
    | nil => simp [Layout.add_leftover_h, Layout.add_leftover_v]
    | cons it0 its =>
      by_cases hany : its.any Layout.is_flex_item
      · simp [Layout.add_leftover_h, Layout.add_leftover_v, hany, ih]
      · by_cases hf : Layout.is_flex_item it0
        · simp [Layout.add_leftover_h, Layout.add_leftover_v, hany, hf, Rect.transpose]
        · simp [Layout.add_leftover_h, Layout.add_leftover_v, hany, hf]

theorem fix_y_transpose :
    ∀ (rs : List Rect) (y0 : Nat),
      Layout.fix_y y0 (rs.map Rect.transpose) = (Layout.fix_x y0 rs).map Rect.transpose := by
  intro rs
  induction rs with
  | nil => intro y0; simp [Layout.fix_x, Layout.fix_y]
  | cons r0 rs ih =>
    intro y0
    simp [Layout.fix_x, Layout.fix_y, Rect.transpose, ih]

theorem split_vertical_transpose (area : Rect) (items : List LayoutItem) :
    Layout.split_vertical area items =
      (Layout.split_horizontal area.transpose items).map Rect.transpose := by
  by_cases hne : items.isEmpty
  · simp [Layout.split_vertical, Layout.split_horizontal, hne]
  · unfold Layout.split_vertical Layout.split_horizontal
    rw [if_neg (by simpa using hne), if_neg (by simpa using hne)]
    dsimp only
    have harea : area.height = area.transpose.width := rfl
    rw [harea, first_pass_v_transpose]
    by_cases hguard : Layout.flex_total items > 0 ∧
        (Layout.first_pass_h area.transpose area.transpose.width items area.transpose.width).2 > 0
    · rw [if_pos hguard, if_pos hguard]
      by_cases htw : Layout.total_flex_weight items > 0
      · rw [if_pos htw, if_pos htw]
        by_cases hd : Layout.distributed
            (Layout.first_pass_h area.transpose area.transpose.width items area.transpose.width).2
            (Layout.total_flex_weight items) items <
            (Layout.first_pass_h area.transpose area.transpose.width items area.transpose.width).2
        · rw [if_pos hd, if_pos hd]
          rw [apply_flex_v_transpose, add_leftover_v_transpose, fix_y_transpose]
          rfl
        · rw [if_neg hd, if_neg hd]
          rw [apply_flex_v_transpose, fix_y_transpose]
          rfl
      · rw [if_neg htw, if_neg htw, fix_y_transpose]
        rfl
    · rw [if_neg hguard, if_neg hguard, fix_y_transpose]
      rfl

theorem remaining_after_false (area : Rect) (items : List LayoutItem) :
    Layout.remaining_after false area items =
      Layout.remaining_after true area.transpose items := by
  show (Layout.first_pass_v area area.height items area.height).2 = _
  rw [first_pass_v_transpose]
  rfl

/-- C2 (amended): for a Horizontal or Vertical node whose flex pool is
non-empty and whose remaining budget after the first pass is positive,
provided the total flex weight is positive and no u16 overflow occurs in
the weight sum, the per-item products remaining times weight, or the
distributed sum, every Flex(w) item is allocated max(floor(remaining * w /
total_weight), 1), every Nested item max(floor(remaining * 1 /
total_weight), 1), and the leftover remaining minus distributed, when
positive, is added entirely to the last flex-pool item; a Horizontal split
of a width-100 height-20 area over Flex(2), Flex(1) yields the rectangles
of widths 66 and 34, both of height 20. -/
theorem layout_c2_second_pass (d : Bool) (area : Rect) (items : List LayoutItem)
    (rem tw D : Nat)
    (hrem_def : rem = Layout.remaining_after d area items)
    (htw_def : tw = (Layout.flex_weights items).sum)
    (hD_def : D = (items.filterMap (Layout.claim_alloc rem tw)).sum)
    (hpool : Layout.flex_total items > 0)
    (hrem : rem > 0)
    (htwpos : 0 < tw)
    (htwb : tw < 65536)
    (hmul : ∀ w ∈ Layout.flex_weights items, rem * w < 65536)
    (hdist : D < 65536) :
    (∀ i it, items.get? i = some it → Layout.is_flex_item it = true →
      ((Layout.split_dir d area items).get? i).map (Rect.major d) =
        (Layout.claim_alloc rem tw it).map
          (fun base =>
            base + (if Layout.last_flex_idx items = some i ∧ D < rem then rem - D else 0))) ∧
    Layout.calculate
        (.horizontal [.constraint (.Flex 2), .constraint (.Flex 1)]) ⟨0, 0, 100, 20⟩ =
      [⟨0, 0, 66, 20⟩, ⟨66, 0, 34, 20⟩] := by
  constructor
  · cases d with
    | false =>
      intro i it hget hflex
      have hrd : rem =
          (Layout.first_pass_h area.transpose area.transpose.width items
            area.transpose.width).2 := by
        rw [hrem_def, remaining_after_false]
        rfl
      have h := split_horizontal_flex_spec area.transpose items rem tw D hrd htw_def hD_def
        hpool hrem htwpos htwb hmul hdist i it hget hflex
      show ((Layout.split_vertical area items).get? i).map (Rect.major false) = _
      rw [split_vertical_transpose, List.get?_map, Option.map_map]
      have hcomp : (Rect.major false) ∘ Rect.transpose = Rect.width := by
        funext r; rfl
      rw [hcomp]
      exact h
    | true =>
      have hrd : rem = (Layout.first_pass_h area area.width items area.width).2 := by
        rw [hrem_def]; rfl
      exact split_horizontal_flex_spec area items rem tw D hrd htw_def hD_def
        hpool hrem htwpos htwb hmul hdist
  · decide

/-- C2 witness: the theorem applied to the Horizontal split of a width-100
area over Flex(2), Flex(1), giving widths 66 and 34. -/
theorem layout_c2_witness :
    ((Layout.split_dir true ⟨0, 0, 100, 20⟩
        [.constraint (.Flex 2), .constraint (.Flex 1)]).get? 0).map (Rect.major true) =
      some 66 ∧
    ((Layout.split_dir true ⟨0, 0, 100, 20⟩
        [.constraint (.Flex 2), .constraint (.Flex 1)]).get? 1).map (Rect.major true) =
      some 34 := by
  have h := layout_c2_second_pass true ⟨0, 0, 100, 20⟩
    [.constraint (.Flex 2), .constraint (.Flex 1)] 100 3 99
    (by decide) (by decide) (by decide) (by decide) (by decide) (by decide) (by decide)
    (by decide) (by decide)
  constructor
  · have h0 := h.1 0 (.constraint (.Flex 2)) rfl (by decide)
    rw [h0]; decide
  · have h1 := h.1 1 (.constraint (.Flex 1)) rfl (by decide)
    rw [h1]; decide

/-- C2 counterexample: at width 40000 the u16 product remaining times
weight wraps, so the Flex(2) item receives 4821, not the claimed
floor(40000 * 2 / 3) = 26666; and a lone Flex(0) item receives 0 although
the claim promises a minimum of 1 whenever the pool is non-empty and the
remaining budget positive. -/
theorem layout_c2_counterexample :
    (Layout.flex_total [.constraint (.Flex 2), .constraint (.Flex 1)] > 0 ∧
     Layout.remaining_after true ⟨0, 0, 40000, 20⟩
       [.constraint (.Flex 2), .constraint (.Flex 1)] = 40000 ∧
     ((Layout.split_dir true ⟨0, 0, 40000, 20⟩
         [.constraint (.Flex 2), .constraint (.Flex 1)]).get? 0).map (Rect.major true) =
       some 4821 ∧
     Layout.last_flex_idx [.constraint (.Flex 2), .constraint (.Flex 1)] = some 1 ∧
     (40000 * 2 / 3 : Nat) = 26666 ∧ (4821 : Nat) ≠ 26666) ∧
    (Layout.flex_total [.constraint (.Flex 0)] > 0 ∧
     Layout.remaining_after true ⟨0, 0, 5, 7⟩ [.constraint (.Flex 0)] = 5 ∧
     ((Layout.split_dir true ⟨0, 0, 5, 7⟩ [.constraint (.Flex 0)]).get? 0).map
         (Rect.major true) = some 0 ∧
     ¬ (1 ≤ (0 : Nat))) := by
  decide

/-- Core lemma for C9: under the guards of the second pass, with a positive
u16 total weight, every flex-pool item of a horizontal split ends with
width at least 1, provided the remaining budget and the distributed sum
stay below 2 to the 16. -/
theorem split_horizontal_flex_ge_one (area : Rect) (items : List LayoutItem)
    (rem twc : Nat)
    (hrem_def : rem = (Layout.first_pass_h area area.width items area.width).2)
    (htwc_def : twc = Layout.total_flex_weight items)
    (hpool : Layout.flex_total items > 0)
    (hrem : rem > 0)
    (htwc : 0 < twc)
    (hremb : rem < 65536)
    (hdistb : (items.filterMap (Layout.flex_alloc rem twc)).sum < 65536) :
    ∀ i it, items.get? i = some it → Layout.is_flex_item it = true →
      ∃ n, ((Layout.split_horizontal area items).get? i).map Rect.width = some n ∧ 1 ≤ n := by
  subst htwc_def
  intro i it hget hflex
  have hmem : it ∈ items := List.get?_mem hget
  have hlen_i : i < items.length := by
    by_contra hcon
    rw [List.get?_eq_none.mpr (by omega)] at hget
    simp at hget
  have hne : items.isEmpty = false := by
    cases items with
    | nil => simp at hget
    | cons a l => rfl
  have hdcode : Layout.distributed rem (Layout.total_flex_weight items) items =
      (items.filterMap (Layout.flex_alloc rem (Layout.total_flex_weight items))).sum := by
    unfold Layout.distributed
    have h0 := foldl_wadd_eq_sum
      (items.filterMap (Layout.flex_alloc rem (Layout.total_flex_weight items))) 0 (by omega)
    simpa using h0
  have halloc : ∃ b, Layout.flex_alloc rem (Layout.total_flex_weight items) it = some b ∧
      1 ≤ b := by
    cases it with
    | nested l => exact ⟨_, rfl, le_max_right _ _⟩
    | constraint c =>
      cases c with
      | Flex w => exact ⟨_, rfl, le_max_right _ _⟩
      | Fixed n => simp [Layout.is_flex_item] at hflex
      | Percentage p => simp [Layout.is_flex_item] at hflex
      | Min n => simp [Layout.is_flex_item] at hflex
      | Max n => simp [Layout.is_flex_item] at hflex
  obtain ⟨b, hb, hb1⟩ := halloc
  have hbD : b ≤ (items.filterMap (Layout.flex_alloc rem (Layout.total_flex_weight items))).sum := by
    apply le_sum_of_mem
    exact List.mem_filterMap.mpr ⟨it, hmem, hb⟩
  have hr : ∃ r, (Layout.first_pass_h area area.width items area.width).1.get? i = some r := by
    have hl := first_pass_h_length area area.width items area.width
    cases hq : (Layout.first_pass_h area area.width items area.width).1.get? i with
    | none =>
      rw [List.get?_eq_none] at hq
      omega
    | some r => exact ⟨r, rfl⟩
  obtain ⟨r, hrget⟩ := hr
  have happ := apply_flex_h_get? rem (Layout.total_flex_weight items)
    (Layout.first_pass_h area area.width items area.width).1 items i r it hrget hget
  rw [hb] at happ
  have hsplit : Layout.split_horizontal area items =
      Layout.fix_x area.x
        (if Layout.distributed rem (Layout.total_flex_weight items) items < rem then
          Layout.add_leftover_h
            (rem - Layout.distributed rem (Layout.total_flex_weight items) items)
            (Layout.apply_flex_h rem (Layout.total_flex_weight items)
              (Layout.first_pass_h area area.width items area.width).1 items) items
         else
          Layout.apply_flex_h rem (Layout.total_flex_weight items)
            (Layout.first_pass_h area area.width items area.width).1 items) := by
    unfold Layout.split_horizontal
    rw [if_neg (by simp [hne])]
    dsimp only
    rw [← hrem_def]
    rw [if_pos ⟨hpool, hrem⟩, if_pos htwc]
  rw [hsplit]
  by_cases hD : Layout.distributed rem (Layout.total_flex_weight items) items < rem
  · rw [if_pos hD, fix_x_width, add_leftover_h_get?]
    rw [hdcode] at hD
    by_cases hli : Layout.last_flex_idx items = some i
    · rw [if_pos hli, happ, hdcode]
      refine ⟨wadd b
        (rem - (items.filterMap (Layout.flex_alloc rem (Layout.total_flex_weight items))).sum),
        by simp, ?_⟩
      have hwadd : wadd b
          (rem - (items.filterMap (Layout.flex_alloc rem (Layout.total_flex_weight items))).sum) =
          b + (rem - (items.filterMap
            (Layout.flex_alloc rem (Layout.total_flex_weight items))).sum) := by
        unfold wadd
        apply Nat.mod_eq_of_lt
        omega
      omega
    · rw [if_neg hli, happ]
      exact ⟨b, by simp, hb1⟩
  · rw [if_neg hD, fix_x_width, happ]
    exact ⟨b, by simp, hb1⟩

/-- C9 (amended): whenever the flex pool is non-empty, the remaining budget
after the first pass is positive, and additionally the u16 total flex
weight is positive and the budget and distributed sum do not overflow u16,
every Flex and Nested item receives a major-axis size of at least 1; in
particular a width-1 Horizontal container over two Flex(1) leaves emits two
width-1 rectangles whose widths sum to 2, exceeding the extent 1, so
calculate does not guarantee that its output fits the input area. -/
theorem layout_c9_min_one (d : Bool) (area : Rect) (items : List LayoutItem)
    (rem twc : Nat)
    (hrem_def : rem = Layout.remaining_after d area items)
    (htwc_def : twc = Layout.total_flex_weight items)
    (hpool : Layout.flex_total items > 0)
    (hrem : rem > 0)
    (htwc : 0 < twc)
    (hremb : rem < 65536)
    (hdistb : (items.filterMap (Layout.flex_alloc rem twc)).sum < 65536) :
    (∀ i it, items.get? i = some it → Layout.is_flex_item it = true →
      ∃ n, ((Layout.split_dir d area items).get? i).map (Rect.major d) = some n ∧ 1 ≤ n) ∧
    (Layout.calculate (.horizontal [.constraint (.Flex 1), .constraint (.Flex 1)]) ⟨0, 0, 1, 1⟩ =
        [⟨0, 0, 1, 1⟩, ⟨1, 0, 1, 1⟩] ∧
     ((Layout.calculate (.horizontal [.constraint (.Flex 1), .constraint (.Flex 1)])
         ⟨0, 0, 1, 1⟩).map Rect.width).sum = 2 ∧
     ¬ ((2 : Nat) ≤ 1)) := by
  constructor
  · cases d with
    | false =>
      intro i it hget hflex
      have hrd : rem =
          (Layout.first_pass_h area.transpose area.transpose.width items
            area.transpose.width).2 := by
        rw [hrem_def, remaining_after_false]
        rfl
      have h := split_horizontal_flex_ge_one area.transpose items rem twc hrd htwc_def
        hpool hrem htwc hremb hdistb i it hget hflex
      show ∃ n, ((Layout.split_vertical area items).get? i).map (Rect.major false) = some n ∧ 1 ≤ n
      rw [split_vertical_transpose, List.get?_map, Option.map_map]
      have hcomp : (Rect.major false) ∘ Rect.transpose = Rect.width := by
        funext r; rfl
      rw [hcomp]
      exact h
    | true =>
      have hrd : rem = (Layout.first_pass_h area area.width items area.width).2 := by
        rw [hrem_def]; rfl
      exact split_horizontal_flex_ge_one area items rem twc hrd htwc_def
        hpool hrem htwc hremb hdistb
  · refine ⟨by decide, by decide, by decide⟩

/-- C9 witness: the theorem applied to the width-1 container over two
Flex(1) leaves; the first leaf receives width at least 1. -/
theorem layout_c9_witness :
    ∃ n, ((Layout.split_dir true ⟨0, 0, 1, 1⟩
        [.constraint (.Flex 1), .constraint (.Flex 1)]).get? 0).map (Rect.major true) =
      some n ∧ 1 ≤ n :=
  (layout_c9_min_one true ⟨0, 0, 1, 1⟩ [.constraint (.Flex 1), .constraint (.Flex 1)] 1 2
    (by decide) (by decide) (by decide) (by decide) (by decide) (by decide) (by decide)).1
    0 (.constraint (.Flex 1)) rfl (by decide)

/-- C9 counterexample: with two Flex(0) leaves over width 7 the flex pool
is non-empty and the remaining budget positive, yet the first leaf is
allocated width 0, below the claimed minimum of 1. -/
theorem layout_c9_counterexample :
    Layout.flex_total [.constraint (.Flex 0), .constraint (.Flex 0)] > 0 ∧
    Layout.remaining_after true ⟨0, 0, 7, 3⟩
      [.constraint (.Flex 0), .constraint (.Flex 0)] = 7 ∧
    ((Layout.split_dir true ⟨0, 0, 7, 3⟩
        [.constraint (.Flex 0), .constraint (.Flex 0)]).get? 0).map (Rect.major true) =
      some 0 ∧
    ¬ (1 ≤ (0 : Nat)) := by
  decide

/-- C3: evaluating the nested example. The code yields 4 leaves, the first
of width 50 and the rest of width 50, but the nested heights split 20 as
6, 6, 8: the whole rounding leftover of 2 goes to the last item, so the
heights claimed by the specification and by the test of the repository,
6, 7, 7, do not match the computed ones. -/
theorem layout_c3_nested_eval :
    Layout.calculate
        (.horizontal
          [.constraint (.Flex 1),
           .nested (.vertical
             [.constraint (.Flex 1), .constraint (.Flex 1), .constraint (.Flex 1)])])
        ⟨0, 0, 100, 20⟩ =
      [⟨0, 0, 50, 20⟩, ⟨50, 0, 50, 6⟩, ⟨50, 6, 50, 6⟩, ⟨50, 12, 50, 8⟩] ∧
    (Layout.calculate
        (.horizontal
          [.constraint (.Flex 1),
           .nested (.vertical
             [.constraint (.Flex 1), .constraint (.Flex 1), .constraint (.Flex 1)])])
        ⟨0, 0, 100, 20⟩).map Rect.height ≠ [20, 6, 7, 7] := by
  constructor
  · decide
  · decide

/-- C10: the Percentage allocation computes total times min(pct, 100) over
100 in u16 arithmetic; for any extent at most 655 the product stays below
2 to the 16, so the allocation equals the exact floor capped at the
remaining budget, in both split directions; at width 1000 with
Percentage(100) the product 100000 wraps to 34464, the allocation becomes
344, and 344 differs from the exact floor 1000. -/
theorem layout_c10_percentage (a : Rect) (total remaining pct : Nat)
    (rest : List LayoutItem) (h : total ≤ 655) :
    (((Layout.first_pass_h a total (.constraint (.Percentage pct) :: rest)
          remaining).1.head?).map Rect.width =
        some (min (total * min pct 100 / 100) remaining) ∧
     ((Layout.first_pass_v a total (.constraint (.Percentage pct) :: rest)
          remaining).1.head?).map Rect.height =
        some (min (total * min pct 100 / 100) remaining)) ∧
    ((Layout.split_horizontal ⟨0, 0, 1000, 10⟩ [.constraint (.Percentage 100)]).map
        Rect.width = [344] ∧
     (344 : Nat) ≠ 1000 * 100 / 100) := by
  have hlt : total * min pct 100 < 65536 := by
    have h1 : total * min pct 100 ≤ 655 * 100 :=
      Nat.mul_le_mul h (min_le_right pct 100)
    omega
  constructor
  · constructor
    · simp [Layout.first_pass_h, wmul, Nat.mod_eq_of_lt hlt]
    · simp [Layout.first_pass_v, wmul, Nat.mod_eq_of_lt hlt]
  · exact ⟨by decide, by decide⟩

/-- C10 witness: the theorem applied at extent 100, Percentage(60),
remaining budget 50, where the allocation is min(60, 50) = 50. -/
theorem layout_c10_witness :
    ((Layout.first_pass_h ⟨0, 0, 100, 10⟩ 100 [.constraint (.Percentage 60)]
        50).1.head?).map Rect.width = some (min (100 * min 60 100 / 100) 50) :=
  (layout_c10_percentage ⟨0, 0, 100, 10⟩ 100 50 60 [] (by decide)).1.1

/-- C4: a plugin whose metadata reports an api_version other than the
expected 1 is rejected with a version-mismatch error right after the
metadata call: the create entry point is neither resolved nor invoked, no
widget is returned, and the bookkeeping map is unchanged. -/
theorem plugin_c4_version_mismatch (lib : LibSpec) (plugins : List String)
    (hcopy : lib.copyOk = true) (hopen : lib.libOpenOk = true)
    (hmeta : lib.metadataSymOk = true) (hver : lib.apiVersion ≠ 1) :
    PluginManager.load_plugin lib plugins =
      (plugins, [.copyToTemp, .openLibrary, .resolveMetadata, .callMetadata],
       .error (.versionMismatch 1 lib.apiVersion)) ∧
    LoadAction.resolveCreate ∉ (PluginManager.load_plugin lib plugins).2.1 ∧
    LoadAction.callCreate ∉ (PluginManager.load_plugin lib plugins).2.1 := by
  have heq : PluginManager.load_plugin lib plugins =
      (plugins, [.copyToTemp, .openLibrary, .resolveMetadata, .callMetadata],
       .error (.versionMismatch 1 lib.apiVersion)) := by
    simp [PluginManager.load_plugin, hcopy, hopen, hmeta, hver]
  refine ⟨heq, ?_, ?_⟩ <;> rw [heq] <;> simp

/-- C4 witness: a concrete plugin reporting api_version 2 against the
expected 1 is rejected, the bookkeeping map stays as it was, and create is
never reached. -/
theorem plugin_c4_witness :
    (PluginManager.load_plugin
        ⟨true, true, true, 2, some "demo", true, true, 7⟩ ["x"]).2.2 =
      .error (.versionMismatch 1 2) ∧
    (PluginManager.load_plugin
        ⟨true, true, true, 2, some "demo", true, true, 7⟩ ["x"]).1 = ["x"] ∧
    LoadAction.callCreate ∉
      (PluginManager.load_plugin
        ⟨true, true, true, 2, some "demo", true, true, 7⟩ ["x"]).2.1 := by
  have h := plugin_c4_version_mismatch ⟨true, true, true, 2, some "demo", true, true, 7⟩
    ["x"] rfl rfl rfl (by decide)
  exact ⟨by rw [h.1], by rw [h.1], h.2.2⟩

theorem set_placeholder_no_old (widgets : List WidgetC) (i : Nat) (old : WidgetC)
    (freshId : Nat) (hget : widgets.get? i = some old)
    (hnd : (widgets.map WidgetC.wid).Nodup)
    (hfresh : freshId ∉ widgets.map WidgetC.wid) :
    ∀ j, ((widgets.set i (placeholderC freshId)).get? j).map WidgetC.wid ≠ some old.wid := by
  intro j hcon
  have hlen_i : i < widgets.length := by
    by_contra hc
    rw [List.get?_eq_none.mpr (by omega)] at hget
    simp at hget
  by_cases hij : i = j
  · subst hij
    rw [List.get?_set_eq_of_lt _ hlen_i] at hcon
    simp [placeholderC] at hcon
    apply hfresh
    rw [hcon]
    exact List.mem_map.mpr ⟨old, List.get?_mem hget, rfl⟩
  · rw [List.get?_set_ne _ _ hij] at hcon
    cases hq : widgets.get? j with
    | none => rw [hq] at hcon; simp at hcon
    | some cj =>
      rw [hq] at hcon
      simp at hcon
      have hi : (widgets.map WidgetC.wid).get? i = some old.wid := by
        rw [List.get?_map, hget]; rfl
      have hj : (widgets.map WidgetC.wid).get? j = some cj.wid := by
        rw [List.get?_map, hq]; rfl
      have : i = j := by
        apply List.get?_inj (by simpa using hlen_i) hnd
        rw [hi, hj, hcon]
      exact hij this

/-- C5: when the load of the replacement fails during a hot-reload, the
reload reports the error instead of crashing; if an old widget had been
found and torn down, its slot now holds the fresh placeholder container,
so no entry holding the old instance remains in the list; if no old widget
existed, the list is unchanged. The only fallible steps of reload_plugin
come after the teardown, so a pre-teardown failure cannot occur and the
previous instance is trivially left running in that arm. -/
theorem plugin_c5_reload_failure (lib : LibSpec) (plugin_name : String) (freshId : Nat)
    (plugins : List String) (widgets : List WidgetC) (e : PluginErr)
    (hfail : (PluginManager.load_plugin lib (removePlugin plugin_name plugins)).2.2 =
      .error e) :
    (∀ i old, listPosition (fun w => w.name == plugin_name) widgets = some i →
        widgets.get? i = some old →
        (PluginManager.reload_plugin lib plugin_name freshId plugins widgets).2.1 =
            widgets.set i (placeholderC freshId) ∧
        (PluginManager.reload_plugin lib plugin_name freshId plugins widgets).2.2.2 =
            some e ∧
        ((widgets.map WidgetC.wid).Nodup → freshId ∉ widgets.map WidgetC.wid →
          ∀ j, ((widgets.set i (placeholderC freshId)).get? j).map WidgetC.wid ≠
            some old.wid)) ∧
    (listPosition (fun w => w.name == plugin_name) widgets = none →
        (PluginManager.reload_plugin lib plugin_name freshId plugins widgets).2.1 = widgets ∧
        (PluginManager.reload_plugin lib plugin_name freshId plugins widgets).2.2.2 =
          some e) := by
  obtain ⟨⟨p2, lacts, res⟩, hlp⟩ :
      ∃ t, PluginManager.load_plugin lib (removePlugin plugin_name plugins) = t := ⟨_, rfl⟩
  rw [hlp] at hfail
  simp only at hfail
  subst hfail
  constructor
  · intro i old hpos hget
    have hred : PluginManager.reload_plugin lib plugin_name freshId plugins widgets =
        (p2, widgets.set i (placeholderC freshId),
         ((if old.mounted then [RAction.onUnmount old.wid] else []) ++
           [RAction.destroyWidget old.wid]) ++ [RAction.removeBookkeeping] ++
           lacts.map RAction.load,
         some e) := by
      simp only [PluginManager.reload_plugin, hpos, hget, hlp]
    rw [hred]
    exact ⟨rfl, rfl, fun hnd hfresh =>
      set_placeholder_no_old widgets i old freshId hget hnd hfresh⟩
  · intro hpos
    have hred : PluginManager.reload_plugin lib plugin_name freshId plugins widgets =
        (p2, widgets, [] ++ [RAction.removeBookkeeping] ++ lacts.map RAction.load,
         some e) := by
      simp only [PluginManager.reload_plugin, hpos, hlp]
    rw [hred]
    exact ⟨rfl, rfl⟩

/-- C5 witness: a failing replacement (api_version 2) for a live widget
named foo at index 0 leaves the placeholder at index 0, the error
reported, and no container holding the old instance 5. -/
theorem plugin_c5_witness :
    (PluginManager.reload_plugin ⟨true, true, true, 2, some "foo", true, true, 7⟩ "foo" 9
        ["foo"] [⟨"foo", 5, true⟩]).2.1 = [placeholderC 9] ∧
    (PluginManager.reload_plugin ⟨true, true, true, 2, some "foo", true, true, 7⟩ "foo" 9
        ["foo"] [⟨"foo", 5, true⟩]).2.2.2 = some (.versionMismatch 1 2) ∧
    ∀ j, (Option.map WidgetC.wid
        ((([⟨"foo", 5, true⟩] : List WidgetC).set 0 (placeholderC 9)).get? j)) ≠ some 5 := by
  have h := plugin_c5_reload_failure ⟨true, true, true, 2, some "foo", true, true, 7⟩
    "foo" 9 ["foo"] [⟨"foo", 5, true⟩] (.versionMismatch 1 2) rfl
  have h1 := h.1 0 ⟨"foo", 5, true⟩ (by decide) rfl
  exact ⟨h1.1, h1.2.1, h1.2.2 (by decide) (by decide)⟩

theorem listPosition_eq_some {α : Type _} (p : α → Bool) :
    ∀ (l : List α) (i : Nat) (a : α),
      l.get? i = some a → p a = true →
      (∀ j b, j < i → l.get? j = some b → p b = false) →
      listPosition p l = some i := by
  intro l
  induction l with
  | nil => intro i a hget _ _; simp at hget
  | cons x xs ih =>
    intro i a hget hpa hbefore
    cases i with
    | zero =>
      rw [List.get?_cons_zero] at hget
      injection hget with hget
      subst hget
      simp [listPosition, hpa]
    | succ i =>
      have hx : p x = false := hbefore 0 x (Nat.succ_pos i) rfl
      rw [List.get?_cons_succ] at hget
      have hrec := ih i a hget hpa
        (fun j b hj hb => hbefore (j + 1) b (Nat.succ_lt_succ hj) (by simpa using hb))
      simp [listPosition, hx, hrec]

theorem nodup_names_ne (widgets : List WidgetC)
    (hnd : (widgets.map WidgetC.name).Nodup) (i j : Nat) (ci cj : WidgetC)
    (hij : i ≠ j) (hi : widgets.get? i = some ci) (hj : widgets.get? j = some cj) :
    ci.name ≠ cj.name := by
  intro hcon
  have hlen_i : i < widgets.length := by
    by_contra hc
    rw [List.get?_eq_none.mpr (by omega)] at hi
    simp at hi
  have h1 : (widgets.map WidgetC.name).get? i = some ci.name := by
    rw [List.get?_map, hi]; rfl
  have h2 : (widgets.map WidgetC.name).get? j = some cj.name := by
    rw [List.get?_map, hj]; rfl
  exact hij (List.get?_inj (by simpa using hlen_i) hnd (by rw [h1, h2, hcon]))

/-- C6 (amended): a successful hot-reload of a plugin whose library reports
the same name as the plugin file, against a widget list with distinct names
holding that name at index i, replaces the widget in place at index i with
the freshly created, mounted instance, leaves the length unchanged, and
leaves every other index untouched. -/
theorem plugin_c6_reload_in_place (lib : LibSpec) (plugin_name : String) (freshId : Nat)
    (plugins : List String) (widgets : List WidgetC) (i : Nat) (c : WidgetC)
    (hnames : (widgets.map WidgetC.name).Nodup)
    (hget : widgets.get? i = some c)
    (hname : c.name = plugin_name)
    (hcopy : lib.copyOk = true) (hopen : lib.libOpenOk = true)
    (hmeta : lib.metadataSymOk = true) (hver : lib.apiVersion = 1)
    (hcreate : lib.createSymOk = true) (hdestroy : lib.destroySymOk = true)
    (hnm : lib.nameUtf8 = some plugin_name) :
    (PluginManager.reload_plugin lib plugin_name freshId plugins widgets).2.2.2 = none ∧
    (PluginManager.reload_plugin lib plugin_name freshId plugins widgets).2.1.length =
      widgets.length ∧
    (PluginManager.reload_plugin lib plugin_name freshId plugins widgets).2.1.get? i =
      some { name := plugin_name, wid := lib.widgetId, mounted := true } ∧
    (∀ j, j ≠ i →
      (PluginManager.reload_plugin lib plugin_name freshId plugins widgets).2.1.get? j =
        widgets.get? j) := by
  have hlen_i : i < widgets.length := by
    by_contra hc
    rw [List.get?_eq_none.mpr (by omega)] at hget
    simp at hget
  have hpos : listPosition (fun w => w.name == plugin_name) widgets = some i := by
    apply listPosition_eq_some _ widgets i c hget
    · simp [hname]
    · intro j b hj hb
      have hne := nodup_names_ne widgets hnames j i b c (by omega) hb hget
      rw [hname] at hne
      simpa using hne
  have hload : PluginManager.load_plugin lib (removePlugin plugin_name plugins) =
      (insertPlugin plugin_name (removePlugin plugin_name plugins),
       [.copyToTemp, .openLibrary, .resolveMetadata, .callMetadata, .resolveCreate,
        .resolveDestroy, .callCreate, .parseName, .insertBookkeeping],
       .ok (plugin_name, lib.widgetId)) := by
    simp [PluginManager.load_plugin, hcopy, hopen, hmeta, hver, hcreate, hdestroy, hnm]
  have hget2 : (widgets.set i
      ({ name := plugin_name, wid := lib.widgetId, mounted := false } : WidgetC)).get? i =
      some { name := plugin_name, wid := lib.widgetId, mounted := false } :=
    List.get?_set_eq_of_lt _ hlen_i
  have hpos2 : listPosition (fun w => w.name == plugin_name)
      (widgets.set i { name := plugin_name, wid := lib.widgetId, mounted := false }) =
      some i := by
    apply listPosition_eq_some _ _ i
      ({ name := plugin_name, wid := lib.widgetId, mounted := false } : WidgetC) hget2
    · simp
    · intro j b hj hb
      rw [List.get?_set_ne _ _ (by omega : i ≠ j)] at hb
      have hne := nodup_names_ne widgets hnames j i b c (by omega) hb hget
      rw [hname] at hne
      simpa using hne
  have hred : PluginManager.reload_plugin lib plugin_name freshId plugins widgets =
      (insertPlugin plugin_name (removePlugin plugin_name plugins),
       widgets.set i { name := plugin_name, wid := lib.widgetId, mounted := true },
       ((if c.mounted then [RAction.onUnmount c.wid] else []) ++
         [RAction.destroyWidget c.wid]) ++ [RAction.removeBookkeeping] ++
         ([LoadAction.copyToTemp, .openLibrary, .resolveMetadata, .callMetadata,
           .resolveCreate, .resolveDestroy, .callCreate, .parseName,
           .insertBookkeeping].map RAction.load) ++ [RAction.onMount lib.widgetId],
       none) := by
    simp only [PluginManager.reload_plugin, hpos, hget, hload, List.set_set, hpos2, hget2]
    simp
  refine ⟨by rw [hred], ?_, ?_, ?_⟩
  · rw [hred]
    simp
  · rw [hred]
    exact List.get?_set_eq_of_lt _ hlen_i
  · intro j hj
    rw [hred]
    exact List.get?_set_ne _ _ (fun hc => hj hc.symm)

/-- C6 witness: a successful reload of foo at index 1 of a two-widget list
replaces index 1 with the fresh mounted instance and leaves index 0 as it
was. -/
theorem plugin_c6_witness :
    (PluginManager.reload_plugin ⟨true, true, true, 1, some "foo", true, true, 42⟩ "foo" 9
        ["foo"] [⟨"bar", 1, true⟩, ⟨"foo", 2, true⟩]).2.2.2 = none ∧
    (PluginManager.reload_plugin ⟨true, true, true, 1, some "foo", true, true, 42⟩ "foo" 9
        ["foo"] [⟨"bar", 1, true⟩, ⟨"foo", 2, true⟩]).2.1.length = 2 ∧
    (PluginManager.reload_plugin ⟨true, true, true, 1, some "foo", true, true, 42⟩ "foo" 9
        ["foo"] [⟨"bar", 1, true⟩, ⟨"foo", 2, true⟩]).2.1.get? 1 =
      some ⟨"foo", 42, true⟩ ∧
    (PluginManager.reload_plugin ⟨true, true, true, 1, some "foo", true, true, 42⟩ "foo" 9
        ["foo"] [⟨"bar", 1, true⟩, ⟨"foo", 2, true⟩]).2.1.get? 0 =
      ([⟨"bar", 1, true⟩, ⟨"foo", 2, true⟩] : List WidgetC).get? 0 := by
  have h := plugin_c6_reload_in_place ⟨true, true, true, 1, some "foo", true, true, 42⟩
    "foo" 9 ["foo"] [⟨"bar", 1, true⟩, ⟨"foo", 2, true⟩] 1 ⟨"foo", 2, true⟩
    (by decide) rfl rfl rfl rfl rfl rfl rfl rfl rfl
  exact ⟨h.1, by rw [h.2.1]; rfl, h.2.2.1, h.2.2.2 0 (by decide)⟩

/-- C6 counterexample: when the reloaded library reports a name other than
the plugin file name, the mount step finds a different widget first: here
the unmounted bar at index 0 gets mounted, so an index other than i is
touched although the reload succeeded and all names were distinct. -/
theorem plugin_c6_counterexample :
    (([⟨"bar", 10, false⟩, ⟨"foo", 11, true⟩] : List WidgetC).map WidgetC.name).Nodup ∧
    ([⟨"bar", 10, false⟩, ⟨"foo", 11, true⟩] : List WidgetC).get? 1 =
      some ⟨"foo", 11, true⟩ ∧
    (PluginManager.reload_plugin ⟨true, true, true, 1, some "bar", true, true, 99⟩ "foo" 50
        ["foo"] [⟨"bar", 10, false⟩, ⟨"foo", 11, true⟩]).2.2.2 = none ∧
    (PluginManager.reload_plugin ⟨true, true, true, 1, some "bar", true, true, 99⟩ "foo" 50
        ["foo"] [⟨"bar", 10, false⟩, ⟨"foo", 11, true⟩]).2.1.get? 0 ≠
      ([⟨"bar", 10, false⟩, ⟨"foo", 11, true⟩] : List WidgetC).get? 0 := by
  decide

theorem lookup_eraseKey {β : Type _} (k : String) :
    ∀ (l : List (String × β)), lookupKey k (eraseKey k l) = none := by
  intro l
  induction l with
  | nil => rfl
  | cons e rest ih =>
    by_cases h : e.1 = k
    · simpa [eraseKey, h] using ih
    · simpa [eraseKey, lookupKey, h] using ih

/-- C7: create returns a pre-built instance registered under the name and
removes it, so a second create no longer finds a pre-built instance and
falls through to the factories; otherwise it invokes a registered factory,
leaving the registry unchanged; otherwise it returns nothing, leaving the
registry unchanged. -/
theorem registry_c7_create (W B I : Type) (r : WidgetRegistry W B I) (name : String)
    (bus : B) (interval : I) :
    (∀ w, lookupKey name r.widgets = some w →
      r.create name bus interval =
          ({ r with widgets := eraseKey name r.widgets }, some w) ∧
        lookupKey name (r.create name bus interval).1.widgets = none ∧
        ((r.create name bus interval).1.create name bus interval).2 =
          (lookupKey name r.factories).map (fun f => f bus interval)) ∧
    (lookupKey name r.widgets = none →
      (∀ f, lookupKey name r.factories = some f →
        r.create name bus interval = (r, some (f bus interval))) ∧
      (lookupKey name r.factories = none →
        r.create name bus interval = (r, none))) := by
  constructor
  · intro w hw
    have hc : r.create name bus interval =
        ({ r with widgets := eraseKey name r.widgets }, some w) := by
      unfold WidgetRegistry.create
      rw [hw]
    refine ⟨hc, ?_, ?_⟩
    · rw [hc]
      exact lookup_eraseKey name r.widgets
    · rw [hc]
      unfold WidgetRegistry.create
      rw [lookup_eraseKey name r.widgets]
      cases hf : lookupKey name r.factories <;> simp
  · intro hw
    constructor
    · intro f hf
      unfold WidgetRegistry.create
      rw [hw, hf]
    · intro hf
      unfold WidgetRegistry.create
      rw [hw, hf]

/-- C7 witness: a registry with a factory for cpu and a pre-built widget
plug; create for plug consumes the pre-built instance exactly once, and
create for cpu invokes the factory. -/
theorem registry_c7_witness :
    ((WidgetRegistry.mk [("cpu", fun _ _ => 7)] [("plug", 42)] :
        WidgetRegistry Nat Nat Nat).create "plug" 0 0).2 = some 42 ∧
    lookupKey "plug"
      ((WidgetRegistry.mk [("cpu", fun _ _ => 7)] [("plug", 42)] :
        WidgetRegistry Nat Nat Nat).create "plug" 0 0).1.widgets = none ∧
    ((WidgetRegistry.mk [("cpu", fun _ _ => 7)] [("plug", 42)] :
        WidgetRegistry Nat Nat Nat).create "cpu" 0 0).2 = some 7 := by
  have h := registry_c7_create Nat Nat Nat
    (WidgetRegistry.mk [("cpu", fun _ _ => 7)] [("plug", 42)]) "plug" 0 0
  have h1 := h.1 42 rfl
  have h2 := registry_c7_create Nat Nat Nat
    (WidgetRegistry.mk [("cpu", fun _ _ => 7)] [("plug", 42)]) "cpu" 0 0
  have h3 := (h2.2 rfl).1 (fun _ _ => 7) rfl
  exact ⟨by rw [h1.1], h1.2.1, by rw [h3]⟩

/-- C8 (amended): the wrapper forwards mount, update, handle_event, render,
render_focused, needs_update and unmount to the plugin instance through the
reconstructed handle, but preferred_size is not forwarded: it returns none
without consulting the instance; on destruction the destroy entry point is
invoked on the stored handle before the owned library handle is released. -/
theorem plugin_c8_forwarding (σ : Type) (pw : PluginWidget σ) (delta e buf : Nat)
    (area : Rect) (focused : Bool) :
    pw.on_mount = { pw with state := pw.vtable.on_mount pw.state } ∧
    pw.on_update delta = { pw with state := pw.vtable.on_update pw.state delta } ∧
    pw.on_event e =
      ({ pw with state := (pw.vtable.on_event pw.state e).1 },
       (pw.vtable.on_event pw.state e).2) ∧
    pw.render area buf =
      ({ pw with state := (pw.vtable.render pw.state area buf).1 },
       (pw.vtable.render pw.state area buf).2) ∧
    pw.render_focused area buf focused =
      ({ pw with state := (pw.vtable.render_focused pw.state area buf focused).1 },
       (pw.vtable.render_focused pw.state area buf focused).2) ∧
    pw.needs_update = pw.vtable.needs_update pw.state ∧
    pw.on_unmount = { pw with state := pw.vtable.on_unmount pw.state } ∧
    pw.preferred_size = none ∧
    PluginWidget.drop pw = [.callDestroy pw.handleId, .releaseLibrary pw.libId] :=
  ⟨rfl, rfl, rfl, rfl, rfl, rfl, rfl, rfl, rfl⟩

/-- C8 counterexample: a plugin instance reporting preferred size 3 by 4 is
wrapped, yet the wrapper reports none: the preferred_size capability is not
forwarded, so the claim that every capability call is forwarded is false. -/
theorem plugin_c8_counterexample :
    cexPluginWidget.preferred_size = none ∧
    cexPluginWidget.vtable.preferred_size cexPluginWidget.state = some ⟨3, 4⟩ ∧
    (some (⟨3, 4⟩ : WSize) ≠ (none : Option WSize)) := by
  refine ⟨rfl, rfl, by decide⟩

/-- C8 witness: the forwarding theorem applied to the concrete wrapper;
needs_update is forwarded and the teardown trace destroys the handle
before releasing the library. -/
theorem plugin_c8_witness :
    cexPluginWidget.needs_update = cexPluginWidget.vtable.needs_update cexPluginWidget.state ∧
    PluginWidget.drop cexPluginWidget = [.callDestroy 1, .releaseLibrary 2] := by
  have h := plugin_c8_forwarding Nat cexPluginWidget 0 0 0 ⟨0, 0, 0, 0⟩ true
  exact ⟨h.2.2.2.2.2.1, h.2.2.2.2.2.2.2.2⟩
